import Mathlib

set_option maxHeartbeats 1000000
set_option maxRecDepth 8192

/-!
Shallow embedding of the cortexd CLI core (`src/cli/src/main.rs`): the wire
value model (`rmpv::Value`), the human value model (`serde_json::Value`),
the bidirectional value bridge (`json_to_msgpack` / `msgpack_to_json`),
and the RPC exchange (`call`), together with proofs about the
specification's testable properties.
-/

/-- Model of a finite-or-special IEEE floating value, as held by
`rmpv::Value::F32`/`F64` and by `serde_json::Number`'s float storage.
A finite float is modelled by its exact rational value (every finite IEEE
float is a rational, and equality of finite floats is equality of those
rationals); the non-finite values are the three special tags.  The
`f32 as f64` cast performed by the source is exact, so the two widths
share this model. -/
inductive Fl where
  | finite (q : ℚ)
  | nan
  | inf
  | negInf
deriving DecidableEq

/-- `true` exactly on the finite floats (Rust `f64::is_finite`). -/
def Fl.isFinite : Fl → Bool
  | .finite _ => true
  | _ => false

/-- Model of `rmpv::Utf8String`: wire text that either decoded to valid
text or kept its raw (invalid) bytes, exactly as the msgpack decoder
produces it. -/
inductive Utf8Str where
  | valid (s : String)
  | invalid (bytes : List Nat)
deriving DecidableEq

/-- `rmpv::Utf8String::as_str`: `some` exactly when the bytes were valid text. -/
def Utf8Str.as_str : Utf8Str → Option String
  | .valid s => some s
  | .invalid _ => none

/-- Model of `rmpv::Value`, the wire value model.  The integer variant is
modelled as an unbounded integer together with the explicit signed/unsigned
64-bit range checks that `Integer::as_i64`/`as_u64` perform; every integer
the decoder can produce lies in `[-2^63, 2^64)`. -/
inductive MsgVal where
  | nil
  | boolean (b : Bool)
  | integer (n : Int)
  | f32 (f : Fl)
  | f64 (f : Fl)
  | str (s : Utf8Str)
  | binary (b : List Nat)
  | array (xs : List MsgVal)
  | map (kvs : List (MsgVal × MsgVal))
  | ext (ty : Int) (data : List Nat)

/-- `true` exactly on `Value::Nil`; `*error != Value::Nil` in the source is
`v.isNil = false` here (`Nil` carries no payload, so the variant test is
the whole comparison). -/
def MsgVal.isNil : MsgVal → Bool
  | .nil => true
  | _ => false

/-- Model of `serde_json::Number`: an integer (covering the `PosInt` and
`NegInt` storages, which compare equal exactly when the mathematical
values do) or a finite double.  Numbers representable by `serde_json`
satisfy `-2^63 ≤ n < 2^64` in the integer case. -/
inductive JNum where
  | int (n : Int)
  | float (q : ℚ)
deriving DecidableEq

/-- Model of `serde_json::Value`, the human value model.  Objects are
modelled as association lists in iteration order; the map invariant of
`serde_json::Map` is that keys are distinct. -/
inductive Json where
  | null
  | bool (b : Bool)
  | num (n : JNum)
  | str (s : String)
  | arr (xs : List Json)
  | obj (kvs : List (String × Json))

/-- The entry list of an object, empty for every other variant. -/
def Json.objEntries : Json → List (String × Json)
  | .obj kvs => kvs
  | _ => []

/-! ## UTF-8 decoding (Rust `String::from_utf8_lossy` and strict validation) -/

/-- The Unicode replacement character U+FFFD. -/
def replacementChar : Char := Char.ofNat 0xFFFD

/-- Is a byte a UTF-8 continuation byte? -/
def isCont (b : Nat) : Bool := 0x80 ≤ b && b ≤ 0xbf

/-- Classify one UTF-8 sequence starting at byte `b0` followed by `rest`:
`ok (cp, extra)` decodes the scalar value `cp` consuming `extra` bytes of
`rest`; `error skip` marks a maximal invalid subpart consuming `skip`
bytes of `rest` (in addition to `b0`).  This is the "maximal subpart"
substitution policy implemented by Rust's UTF-8 validation and used by
`String::from_utf8_lossy`. -/
def utf8Classify (b0 : Nat) (rest : List Nat) : Except Nat (Nat × Nat) :=
  if b0 ≤ 0x7f then .ok (b0, 0)
  else if b0 < 0xc2 then .error 0
  else if b0 ≤ 0xdf then
    match rest with
    | [] => .error 0
    | b1 :: _ =>
      if isCont b1 then .ok ((b0 - 0xc0) * 0x40 + (b1 - 0x80), 1) else .error 0
  else if b0 ≤ 0xef then
    let lo := if b0 = 0xe0 then 0xa0 else 0x80
    let hi := if b0 = 0xed then 0x9f else 0xbf
    match rest with
    | [] => .error 0
    | b1 :: rest1 =>
      if lo ≤ b1 ∧ b1 ≤ hi then
        match rest1 with
        | [] => .error 1
        | b2 :: _ =>
          if isCont b2 then
            .ok ((b0 - 0xe0) * 0x1000 + (b1 - 0x80) * 0x40 + (b2 - 0x80), 2)
          else .error 1
      else .error 0
  else if b0 ≤ 0xf4 then
    let lo := if b0 = 0xf0 then 0x90 else 0x80
    let hi := if b0 = 0xf4 then 0x8f else 0xbf
    match rest with
    | [] => .error 0
    | b1 :: rest1 =>
      if lo ≤ b1 ∧ b1 ≤ hi then
        match rest1 with
        | [] => .error 1
        | b2 :: rest2 =>
          if isCont b2 then
            match rest2 with
            | [] => .error 2
            | b3 :: _ =>
              if isCont b3 then
                .ok ((b0 - 0xf0) * 0x40000 + (b1 - 0x80) * 0x1000 +
                      (b2 - 0x80) * 0x40 + (b3 - 0x80), 3)
              else .error 2
          else .error 1
      else .error 0
  else .error 0

/-- The character list produced by lossy UTF-8 decoding: each decoded
scalar becomes its character, each maximal invalid subpart becomes one
replacement character. -/
def utf8LossyAux (l : List Nat) : List Char :=
  match l with
  | [] => []
  | b0 :: rest =>
    match utf8Classify b0 rest with
    | .ok (cp, extra) => Char.ofNat cp :: utf8LossyAux (rest.drop extra)
    | .error skip => replacementChar :: utf8LossyAux (rest.drop skip)
termination_by l.length
decreasing_by
  all_goals simp [List.length_drop]; omega

/-- Rust `String::from_utf8_lossy(b).to_string()`. -/
def utf8Lossy (l : List Nat) : String := String.mk (utf8LossyAux l)

/-- Strict UTF-8 validity of a byte sequence. -/
def validUtf8 (l : List Nat) : Bool :=
  match l with
  | [] => true
  | b0 :: rest =>
    match utf8Classify b0 rest with
    | .ok (_, extra) => validUtf8 (rest.drop extra)
    | .error _ => false
termination_by l.length
decreasing_by
  all_goals simp [List.length_drop]; omega

/-- The `Utf8String` a msgpack decoder builds from raw string bytes:
valid text decodes, invalid bytes are kept raw. -/
def mkUtf8Str (b : List Nat) : Utf8Str :=
  if validUtf8 b then .valid (String.mk (utf8LossyAux b)) else .invalid b

/-! ## Textual rendering (`format!("{}", value)` on `rmpv::Value`)

The structural part (which variant renders how, separators, brackets) is
modelled from the library's `Display` implementation.  Finite float
payloads are abstract rationals in this model, so their rendering shows
the exact decimal expansion; the escaping of text inside quoted strings
is likewise abstracted (the inner text is spliced verbatim).  No claim
depends on those two renderings beyond their totality. -/

/-- Decimal digits of the fraction `r / d` (with `r < d`), at most `fuel`
digits, stopping when the remainder reaches zero. -/
def fracDigits : Nat → Nat → Nat → List Char
  | 0, _, _ => []
  | _ + 1, 0, _ => []
  | fuel + 1, r, d =>
    Char.ofNat (48 + r * 10 / d) :: fracDigits fuel (r * 10 % d) d

/-- Decimal rendering of a rational (exact; used for finite floats). -/
def ratDisplay (q : ℚ) : String :=
  let n := q.num.natAbs
  let d := q.den
  let ip := n / d
  let r := n % d
  (if q < 0 then "-" else "") ++ toString ip ++
    (if r = 0 then "" else "." ++ String.mk (fracDigits 1200 r d))

/-- Rendering of a float value (Rust `Display` for `f32`/`f64`). -/
def flDisplay : Fl → String
  | .nan => "NaN"
  | .inf => "inf"
  | .negInf => "-inf"
  | .finite q => ratDisplay q

/-- Rust `Debug` rendering of a byte vector: `[1, 2, 3]`. -/
def debugBytes (l : List Nat) : String :=
  "[" ++ String.intercalate ", " (l.map (fun b => toString b)) ++ "]"

mutual

/-- `format!("{}", v)` for `rmpv::Value`. -/
def display : MsgVal → String
  | .nil => "nil"
  | .boolean b => if b then "true" else "false"
  | .integer n => toString n
  | .f32 f => flDisplay f
  | .f64 f => flDisplay f
  | .str (.valid s) => "\"" ++ s ++ "\""
  | .str (.invalid b) => debugBytes b
  | .binary b => debugBytes b
  | .array xs => "[" ++ String.intercalate ", " (displayList xs) ++ "]"
  | .map kvs => "\x7b" ++ String.intercalate ", " (displayEntries kvs) ++ "\x7d"
  | .ext ty data => "[" ++ toString ty ++ ", " ++ debugBytes data ++ "]"

def displayList : List MsgVal → List String
  | [] => []
  | x :: xs => display x :: displayList xs

def displayEntries : List (MsgVal × MsgVal) → List String
  | [] => []
  | (k, v) :: rest => (display k ++ ": " ++ display v) :: displayEntries rest

end

/-! ## The value bridge -/

/-- `rmpv::Integer::as_i64`: the value when it is in signed 64-bit range. -/
def rmpv_as_i64 (n : Int) : Option Int :=
  if -(2 ^ 63) ≤ n ∧ n < 2 ^ 63 then some n else none

/-- `rmpv::Integer::as_u64`: the value when it is in unsigned 64-bit range. -/
def rmpv_as_u64 (n : Int) : Option Int :=
  if 0 ≤ n ∧ n < 2 ^ 64 then some n else none

/-- `serde_json::Number::as_i64`: `NegInt` storage always succeeds, `PosInt`
storage succeeds up to `i64::MAX`, float storage fails.  (Representable
numbers satisfy `-2^63 ≤ n`.) -/
def serde_as_i64 : JNum → Option Int
  | .int n => if n < 2 ^ 63 then some n else none
  | .float _ => none

/-- Round an integer to the nearest `f64` (round half to even); exact below
`2^53`.  This models the `u64 as f64` cast reached for numbers above
`i64::MAX`. -/
def roundF64 (n : Int) : Fl :=
  let m := n.natAbs
  if m < 2 ^ 53 then .finite (n : ℚ)
  else
    let k := m.log2 - 52
    let q := m / 2 ^ k
    let r := m % 2 ^ k
    let half := 2 ^ (k - 1)
    let q' := if half < r ∨ (r = half ∧ q % 2 = 1) then q + 1 else q
    let v : ℚ := (q' * 2 ^ k : ℕ)
    .finite (if n < 0 then -v else v)

/-- `serde_json::Number::as_f64`: always succeeds, casting integer storage. -/
def serde_as_f64 : JNum → Option Fl
  | .int n => some (roundF64 n)
  | .float q => some (.finite q)

/-- `serde_json::Number::from_f64`: `some` exactly for finite floats. -/
def serde_from_f64 : Fl → Option ℚ
  | .finite q => some q
  | _ => none

mutual

/-- `json_to_msgpack` (src/cli/src/main.rs:325-346): Human → Wire. -/
def json_to_msgpack : Json → MsgVal
  | .null => .nil
  | .bool b => .boolean b
  | .num n =>
    match serde_as_i64 n with
    | some i => .integer i
    | none =>
      match serde_as_f64 n with
      | some f => .f64 f
      | none => .nil
  | .str s => .str (.valid s)
  | .arr xs => .array (jsonListToMsgpack xs)
  | .obj kvs => .map (jsonEntriesToMsgpack kvs)

/-- `arr.iter().map(json_to_msgpack).collect()`. -/
def jsonListToMsgpack : List Json → List MsgVal
  | [] => []
  | x :: xs => json_to_msgpack x :: jsonListToMsgpack xs

/-- `obj.iter().map(|(k, v)| (Value::String(k.clone().into()), json_to_msgpack(v))).collect()`. -/
def jsonEntriesToMsgpack : List (String × Json) → List (MsgVal × MsgVal)
  | [] => []
  | (k, v) :: rest => (.str (.valid k), json_to_msgpack v) :: jsonEntriesToMsgpack rest

end

/-- Insertion into a string-keyed object in assignment order: an existing
key keeps its position and receives the new value (last assignment wins),
a fresh key is appended.  This is `Map::insert` as exercised by
`FromIterator` collection in the source. -/
def objInsert : List (String × Json) → String → Json → List (String × Json)
  | [], k, v => [(k, v)]
  | (k', v') :: rest, k, v =>
    if k' = k then (k', v) :: rest else (k', v') :: objInsert rest k v

/-- `collect()` of key/value pairs into a `serde_json::Map`: left fold of
insertion starting from the empty map. -/
def objFromList (l : List (String × Json)) : List (String × Json) :=
  l.foldl (fun m p => objInsert m p.1 p.2) []

/-- First-match lookup in an object entry list (`Map::get`). -/
def objLookup : List (String × Json) → String → Option Json
  | [], _ => none
  | (k, v) :: rest, t => if k = t then some v else objLookup rest t

/-- The key computation of the map arm of `msgpack_to_json`
(src/cli/src/main.rs:374-377): a text-string key yields its text when the
bytes decode (`as_str`), any other key kind yields `format!("{}", k)`. -/
def keyRender (k : MsgVal) : Option String :=
  match k with
  | .str s => s.as_str
  | _ => some (display k)

mutual

/-- `msgpack_to_json` (src/cli/src/main.rs:348-385): Wire → Human. -/
def msgpack_to_json : MsgVal → Json
  | .nil => .null
  | .boolean b => .bool b
  | .integer i =>
    match rmpv_as_i64 i with
    | some n => .num (.int n)
    | none =>
      match rmpv_as_u64 i with
      | some n => .num (.int n)
      | none => .null
  | .f32 f =>
    .num (match serde_from_f64 f with
          | some q => .float q
          | none => .int 0)
  | .f64 f =>
    .num (match serde_from_f64 f with
          | some q => .float q
          | none => .int 0)
  | .str s => .str ((s.as_str).getD "")
  | .binary b => .str (utf8Lossy b)
  | .array xs => .arr (msgpackListToJson xs)
  | .map kvs => .obj (objFromList (msgpackEntriesToJson kvs))
  | .ext _ _ => .null

/-- `arr.iter().map(msgpack_to_json).collect()`. -/
def msgpackListToJson : List MsgVal → List Json
  | [] => []
  | x :: xs => msgpack_to_json x :: msgpackListToJson xs

/-- The `filter_map` of the map arm: render the key, convert the value,
drop the entry when the key yields no text. -/
def msgpackEntriesToJson : List (MsgVal × MsgVal) → List (String × Json)
  | [] => []
  | (k, v) :: rest =>
    match keyRender k with
    | some ks => (ks, msgpack_to_json v) :: msgpackEntriesToJson rest
    | none => msgpackEntriesToJson rest

end

/-! ## The msgpack decoder (`rmpv::decode::read_value`)

The decoder is the boundary behavior of the `rmpv` crate, modelled marker
by marker from the MessagePack specification it implements.  The error
strings within the decode-error category abbreviate the library's error
`Display` texts; the `call` pipeline only ever prefixes them with
`"decode error: "`. -/

/-- The decode error for running out of input bytes. -/
def eofMsg : String := "unexpected end of input"

/-- Big-endian byte composition. -/
def beNat (l : List Nat) : Nat := l.foldl (fun a b => a * 256 + b) 0

/-- Split off exactly `k` leading bytes, failing when too few remain. -/
def splitAtExact (k : Nat) (l : List Nat) : Option (List Nat × List Nat) :=
  if k ≤ l.length then some (l.take k, l.drop k) else none

/-- Two's-complement reading of a `w`-bit big-endian value. -/
def signedOfWidth (w : Nat) (v : Nat) : Int :=
  if v < 2 ^ (w - 1) then (v : Int) else (v : Int) - 2 ^ w

/-- Decode an IEEE binary float from its bit pattern (`exBits` exponent
bits, `mantBits` mantissa bits) into the float model. -/
def decodeFloatBits (exBits mantBits : Nat) (bits : Nat) : Fl :=
  let sign := bits / 2 ^ (exBits + mantBits) % 2
  let ex := bits / 2 ^ mantBits % 2 ^ exBits
  let frac := bits % 2 ^ mantBits
  if ex = 2 ^ exBits - 1 then
    if frac = 0 then (if sign = 1 then Fl.negInf else Fl.inf) else Fl.nan
  else
    let bias : Int := 2 ^ (exBits - 1) - 1
    let e : Int := if ex = 0 then 1 else ex
    let m : Nat := if ex = 0 then frac else frac + 2 ^ mantBits
    let q : ℚ := (m : ℚ) * (2 : ℚ) ^ (e - bias - mantBits)
    Fl.finite (if sign = 1 then -q else q)

/-- Read a `w`-byte big-endian length prefix. -/
def readLen (w : Nat) (l : List Nat) : Option (Nat × List Nat) :=
  (splitAtExact w l).map (fun p => (beNat p.1, p.2))

/-- Read a string payload of `len` bytes. -/
def readStrPayload (len : Nat) (l : List Nat) : Except String (MsgVal × List Nat) :=
  match splitAtExact len l with
  | none => .error eofMsg
  | some (b, r) => .ok (.str (mkUtf8Str b), r)

/-- Read a binary payload of `len` bytes. -/
def readBinPayload (len : Nat) (l : List Nat) : Except String (MsgVal × List Nat) :=
  match splitAtExact len l with
  | none => .error eofMsg
  | some (b, r) => .ok (.binary b, r)

/-- Read an extension payload: a signed type byte then `len` data bytes. -/
def readExtPayload (len : Nat) (l : List Nat) : Except String (MsgVal × List Nat) :=
  match l with
  | [] => .error eofMsg
  | t :: r =>
    match splitAtExact len r with
    | none => .error eofMsg
    | some (b, r') => .ok (.ext (signedOfWidth 8 t) b, r')

/-- Read a `w`-byte unsigned integer payload. -/
def readUintPayload (w : Nat) (l : List Nat) : Except String (MsgVal × List Nat) :=
  match splitAtExact w l with
  | none => .error eofMsg
  | some (b, r) => .ok (.integer (beNat b), r)

/-- Read a `w`-byte signed integer payload. -/
def readIntPayload (w : Nat) (l : List Nat) : Except String (MsgVal × List Nat) :=
  match splitAtExact w l with
  | none => .error eofMsg
  | some (b, r) => .ok (.integer (signedOfWidth (8 * w) (beNat b)), r)

/-- Read a 4-byte float payload. -/
def readF32Payload (l : List Nat) : Except String (MsgVal × List Nat) :=
  match splitAtExact 4 l with
  | none => .error eofMsg
  | some (b, r) => .ok (.f32 (decodeFloatBits 8 23 (beNat b)), r)

/-- Read an 8-byte float payload. -/
def readF64Payload (l : List Nat) : Except String (MsgVal × List Nat) :=
  match splitAtExact 8 l with
  | none => .error eofMsg
  | some (b, r) => .ok (.f64 (decodeFloatBits 11 52 (beNat b)), r)

/-- The action selected by one marker byte of the MessagePack format. -/
inductive Instr where
  | imm (v : MsgVal)
  | fail (e : String)
  | strLen (len : Nat)
  | strPfx (w : Nat)
  | binPfx (w : Nat)
  | extLen (len : Nat)
  | extPfx (w : Nat)
  | fl32
  | fl64
  | uint (w : Nat)
  | sint (w : Nat)
  | arrLen (n : Nat)
  | arrPfx (w : Nat)
  | mapLen (n : Nat)
  | mapPfx (w : Nat)

/-- Marker dispatch of the MessagePack format: positive fixint, fixmap,
fixarray, fixstr, nil, reserved, booleans, bin8/16/32, ext8/16/32,
float32/64, uint8/16/32/64, int8/16/32/64, fixext1/2/4/8/16, str8/16/32,
array16/32, map16/32, negative fixint. -/
def markerInstr (m : Nat) : Instr :=
  if m ≤ 0x7f then .imm (.integer m)
  else if m ≤ 0x8f then .mapLen (m - 0x80)
  else if m ≤ 0x9f then .arrLen (m - 0x90)
  else if m ≤ 0xbf then .strLen (m - 0xa0)
  else if m = 0xc0 then .imm .nil
  else if m = 0xc1 then .fail "reserved marker"
  else if m = 0xc2 then .imm (.boolean false)
  else if m = 0xc3 then .imm (.boolean true)
  else if m = 0xc4 then .binPfx 1
  else if m = 0xc5 then .binPfx 2
  else if m = 0xc6 then .binPfx 4
  else if m = 0xc7 then .extPfx 1
  else if m = 0xc8 then .extPfx 2
  else if m = 0xc9 then .extPfx 4
  else if m = 0xca then .fl32
  else if m = 0xcb then .fl64
  else if m = 0xcc then .uint 1
  else if m = 0xcd then .uint 2
  else if m = 0xce then .uint 4
  else if m = 0xcf then .uint 8
  else if m = 0xd0 then .sint 1
  else if m = 0xd1 then .sint 2
  else if m = 0xd2 then .sint 4
  else if m = 0xd3 then .sint 8
  else if m = 0xd4 then .extLen 1
  else if m = 0xd5 then .extLen 2
  else if m = 0xd6 then .extLen 4
  else if m = 0xd7 then .extLen 8
  else if m = 0xd8 then .extLen 16
  else if m = 0xd9 then .strPfx 1
  else if m = 0xda then .strPfx 2
  else if m = 0xdb then .strPfx 4
  else if m = 0xdc then .arrPfx 2
  else if m = 0xdd then .arrPfx 4
  else if m = 0xde then .mapPfx 2
  else if m = 0xdf then .mapPfx 4
  else .imm (.integer ((m : Int) - 256))

mutual

/-- `rmpv::decode::read_value`, reading one wire value from the front of
the byte list and returning the remaining bytes.  `fuel` bounds the
nesting depth; each nesting level consumes at least one marker byte, so
`length + 1` fuel (as supplied by `read_value`) never runs out on any
input. -/
def readValue : Nat → List Nat → Except String (MsgVal × List Nat)
  | _, [] => .error eofMsg
  | 0, _ :: _ => .error "nesting too deep"
  | fuel + 1, m :: rest =>
    match markerInstr m with
    | .imm v => .ok (v, rest)
    | .fail e => .error e
    | .strLen len => readStrPayload len rest
    | .strPfx w =>
      match readLen w rest with
      | none => .error eofMsg
      | some (n, r) => readStrPayload n r
    | .binPfx w =>
      match readLen w rest with
      | none => .error eofMsg
      | some (n, r) => readBinPayload n r
    | .extLen len => readExtPayload len rest
    | .extPfx w =>
      match readLen w rest with
      | none => .error eofMsg
      | some (n, r) => readExtPayload n r
    | .fl32 => readF32Payload rest
    | .fl64 => readF64Payload rest
    | .uint w => readUintPayload w rest
    | .sint w => readIntPayload w rest
    | .arrLen n => readList fuel n rest []
    | .arrPfx w =>
      match readLen w rest with
      | none => .error eofMsg
      | some (n, r) => readList fuel n r []
    | .mapLen n => readPairs fuel n rest []
    | .mapPfx w =>
      match readLen w rest with
      | none => .error eofMsg
      | some (n, r) => readPairs fuel n r []
termination_by fuel _ => (fuel, 0)

/-- Read `n` array elements, accumulating in reverse. -/
def readList : Nat → Nat → List Nat → List MsgVal → Except String (MsgVal × List Nat)
  | _, 0, l, acc => .ok (.array acc.reverse, l)
  | fuel, n + 1, l, acc =>
    match readValue fuel l with
    | .error e => .error e
    | .ok (v, r) => readList fuel n r (v :: acc)
termination_by fuel n _ _ => (fuel, n + 1)

/-- Read `n` key/value pairs, accumulating in reverse. -/
def readPairs : Nat → Nat → List Nat → List (MsgVal × MsgVal) → Except String (MsgVal × List Nat)
  | _, 0, l, acc => .ok (.map acc.reverse, l)
  | fuel, n + 1, l, acc =>
    match readValue fuel l with
    | .error e => .error e
    | .ok (k, r) =>
      match readValue fuel r with
      | .error e => .error e
      | .ok (v, r') => readPairs fuel n r' ((k, v) :: acc)
termination_by fuel n _ _ => (fuel, n + 1)

end

/-- Decode exactly one wire value from the bytes read; trailing bytes are
ignored, not rejected. -/
def read_value (bytes : List Nat) : Except String MsgVal :=
  (readValue (bytes.length + 1) bytes).map (fun p => p.1)

/-! ## The RPC exchange (`call`, src/cli/src/main.rs:279-323) -/

/-- The initial value of the process-wide correlation-id counter
(`static MSG_ID: AtomicU32 = AtomicU32::new(1)`). -/
def MSG_ID_init : Nat := 1

/-- `MSG_ID.fetch_add(1, Ordering::SeqCst)`: returns the captured value
and the incremented counter, wrapping at the 32-bit boundary. -/
def fetch_add (c : Nat) : Nat × Nat := (c, (c + 1) % 2 ^ 32)

/-- The request envelope `[0, msgid, method, params]`
(src/cli/src/main.rs:284-289). -/
def buildRequest (msgid : Nat) (method : String) (params : List MsgVal) : MsgVal :=
  .array [.integer 0, .integer msgid, .str (.valid method), .array params]

/-- The request envelopes produced by a sequence of calls, threading the
counter through `fetch_add`. -/
def runCalls : Nat → List (String × List MsgVal) → List MsgVal
  | _, [] => []
  | c, (m, ps) :: rest =>
    let msgid := (fetch_add c).1
    buildRequest msgid m ps :: runCalls (fetch_add c).2 rest

/-- The error-message computation of the error slot
(src/cli/src/main.rs:312-315): the string content when the slot is
decodable text, the fixed fallback when the text is undecodable, the
textual rendering otherwise. -/
def rpcErrMsg (e : MsgVal) : String :=
  match e with
  | .str s => (s.as_str).getD "unknown error"
  | _ => display e

/-- The reply-envelope handling of `call` (src/cli/src/main.rs:306-322):
a 4-element array is inspected at the error slot (index 2) and result
slot (index 3); any other decoded value is the protocol failure. -/
def handleResponse (response : MsgVal) : Except String (Option MsgVal) :=
  match response with
  | .array [_, _, error, result] =>
    if error.isNil then .ok (some result) else .error (rpcErrMsg error)
  | _ => .error "invalid response format"

/-- Transport outcomes of one exchange: the connect and write steps either
succeed or fail with an underlying cause, and the single bounded read
either fails or returns the bytes actually read.  (The daemon and the
socket are external; the serialized request bytes go to the transport and
do not influence the reply path modelled here.  Serializing into the
in-memory buffer cannot fail, so the `encode error` arm of the source is
unreachable and not modelled.) -/
structure Exchange where
  connectErr : Option String
  writeErr : Option String
  readRes : Except String (List Nat)

/-- `call` (src/cli/src/main.rs:279-323): one connect / send / receive /
decode cycle, with each failure rendered to the human-readable message the
source produces. -/
def call (socketPath : String) (ex : Exchange) (msgid : Nat) (method : String)
    (params : List MsgVal) : Except String (Option MsgVal) :=
  match ex.connectErr with
  | some e => .error ("cannot connect to " ++ socketPath ++ ": " ++ e)
  | none =>
    let _request := buildRequest msgid method params
    match ex.writeErr with
    | some e => .error ("write error: " ++ e)
    | none =>
      match ex.readRes with
      | .error e => .error ("read error: " ++ e)
      | .ok bytes =>
        match read_value bytes with
        | .error e => .error ("decode error: " ++ e)
        | .ok response => handleResponse response

/-! ## Predicates used by the claims -/

/-- The "pure-text" Human Value trees of the round-trip property: built
only from null, booleans, strings, integer-valued numbers within signed
64-bit range, and arrays/objects of those; objects carry the
`serde_json::Map` invariant of distinct keys. -/
inductive PureVal : Json → Prop where
  | null : PureVal .null
  | bool (b : Bool) : PureVal (.bool b)
  | str (s : String) : PureVal (.str s)
  | int (n : Int) : -(2 ^ 63) ≤ n → n < 2 ^ 63 → PureVal (.num (.int n))
  | arr (xs : List Json) : (∀ x ∈ xs, PureVal x) → PureVal (.arr xs)
  | obj (kvs : List (String × Json)) : (∀ p ∈ kvs, PureVal p.2) →
      (kvs.map Prod.fst).Nodup → PureVal (.obj kvs)

/-- The Human Values representable by `serde_json`: integer numbers lie in
the union of the signed and unsigned 64-bit ranges. -/
inductive WfJson : Json → Prop where
  | null : WfJson .null
  | bool (b : Bool) : WfJson (.bool b)
  | str (s : String) : WfJson (.str s)
  | int (n : Int) : -(2 ^ 63) ≤ n → n < 2 ^ 64 → WfJson (.num (.int n))
  | float (q : ℚ) : WfJson (.num (.float q))
  | arr (xs : List Json) : (∀ x ∈ xs, WfJson x) → WfJson (.arr xs)
  | obj (kvs : List (String × Json)) : (∀ p ∈ kvs, WfJson p.2) → WfJson (.obj kvs)

mutual

/-- The output vocabulary claimed for `json_to_msgpack`: nil, booleans,
signed-64 integers, 64-bit floats, decodable text strings, arrays, and
maps whose keys are decodable text strings — never binary, 32-bit floats,
or extensions. -/
def wireOk : MsgVal → Bool
  | .nil => true
  | .boolean _ => true
  | .integer n => decide (-(2 ^ 63) ≤ n) && decide (n < 2 ^ 63)
  | .f32 _ => false
  | .f64 _ => true
  | .str s => (match s with | .valid _ => true | .invalid _ => false)
  | .binary _ => false
  | .array xs => wireOkList xs
  | .map kvs => wireOkEntries kvs
  | .ext _ _ => false

def wireOkList : List MsgVal → Bool
  | [] => true
  | x :: xs => wireOk x && wireOkList xs

def wireOkEntries : List (MsgVal × MsgVal) → Bool
  | [] => true
  | (k, v) :: rest =>
    (match k with | .str (.valid _) => true | _ => false) && wireOk v && wireOkEntries rest

end

/-! ## Helper lemmas -/

theorem jsonListToMsgpack_eq_map (l : List Json) :
    jsonListToMsgpack l = l.map json_to_msgpack := by
  induction l with
  | nil => simp [jsonListToMsgpack]
  | cons x xs ih => simp [jsonListToMsgpack, ih]

theorem msgpackListToJson_eq_map (l : List MsgVal) :
    msgpackListToJson l = l.map msgpack_to_json := by
  induction l with
  | nil => simp [msgpackListToJson]
  | cons x xs ih => simp [msgpackListToJson, ih]

theorem msgpackEntriesToJson_eq_filterMap (l : List (MsgVal × MsgVal)) :
    msgpackEntriesToJson l
      = l.filterMap (fun p => (keyRender p.1).map (fun ks => (ks, msgpack_to_json p.2))) := by
  induction l with
  | nil => simp [msgpackEntriesToJson]
  | cons p rest ih =>
    obtain ⟨k, v⟩ := p
    cases h : keyRender k <;> simp [msgpackEntriesToJson, h, ih]

theorem objInsert_fresh (m : List (String × Json)) (k : String) (v : Json)
    (h : k ∉ m.map Prod.fst) : objInsert m k v = m ++ [(k, v)] := by
  induction m with
  | nil => rfl
  | cons p rest ih =>
    obtain ⟨k', v'⟩ := p
    simp only [List.map_cons, List.mem_cons, not_or] at h
    rw [objInsert, if_neg (fun hk => h.1 hk.symm), ih h.2]
    simp

theorem objFromList_aux (l : List (String × Json)) :
    ∀ acc : List (String × Json),
      (∀ p ∈ l, p.1 ∉ acc.map Prod.fst) → (l.map Prod.fst).Nodup →
      l.foldl (fun m p => objInsert m p.1 p.2) acc = acc ++ l := by
  induction l with
  | nil => intro acc _ _; simp
  | cons p rest ih =>
    intro acc hd hn
    simp only [List.map_cons, List.nodup_cons] at hn
    simp only [List.foldl_cons]
    rw [objInsert_fresh acc p.1 p.2 (hd p (by simp))]
    rw [ih (acc ++ [(p.1, p.2)]) ?_ hn.2]
    · simp
    · intro q hq
      simp only [List.map_append, List.mem_append, not_or]
      refine ⟨hd q (by simp [hq]), ?_⟩
      simp only [List.map_cons, List.map_nil, List.mem_singleton]
      intro hqe
      exact hn.1 (hqe ▸ List.mem_map_of_mem Prod.fst hq)

theorem objFromList_eq_self (l : List (String × Json))
    (hn : (l.map Prod.fst).Nodup) : objFromList l = l := by
  have := objFromList_aux l [] (by simp) hn
  simpa [objFromList] using this

theorem objLookup_objInsert (m : List (String × Json)) (k t : String) (v : Json) :
    objLookup (objInsert m k v) t = if k = t then some v else objLookup m t := by
  induction m with
  | nil =>
    by_cases h : k = t <;> simp [objInsert, objLookup, h]
  | cons p rest ih =>
    obtain ⟨k', v'⟩ := p
    by_cases hk : k' = k
    · subst hk
      by_cases ht : k' = t <;> simp [objInsert, objLookup, ht]
    · by_cases ht : k' = t
      · have hkt : ¬ k = t := fun h => hk (ht.trans h.symm)
        have htk : ¬ t = k := fun h => hkt h.symm
        simp [objInsert, hk, objLookup, ht, hkt, htk]
      · simp [objInsert, hk, objLookup, ht, ih]

theorem objLookup_append (a b : List (String × Json)) (t : String) :
    objLookup (a ++ b) t
      = match objLookup a t with
        | some v => some v
        | none => objLookup b t := by
  induction a with
  | nil => simp [objLookup]
  | cons p rest ih =>
    obtain ⟨k, v⟩ := p
    by_cases h : k = t <;> simp [objLookup, h, ih]

theorem objLookup_foldl (l : List (String × Json)) :
    ∀ (acc : List (String × Json)) (t : String),
      objLookup (l.foldl (fun m p => objInsert m p.1 p.2) acc) t
        = match objLookup l.reverse t with
          | some v => some v
          | none => objLookup acc t := by
  induction l with
  | nil => intro acc t; simp [objLookup]
  | cons p rest ih =>
    intro acc t
    simp only [List.foldl_cons, List.reverse_cons]
    rw [ih, objLookup_append]
    cases h : objLookup rest.reverse t with
    | some v => simp
    | none =>
      rw [objLookup_objInsert]
      by_cases hp : p.1 = t <;> simp [objLookup, hp]

theorem objLookup_objFromList (l : List (String × Json)) (t : String) :
    objLookup (objFromList l) t = objLookup l.reverse t := by
  rw [objFromList, objLookup_foldl]
  cases h : objLookup l.reverse t <;> simp [objLookup]

theorem listRoundtrip (xs : List Json)
    (ih : ∀ x ∈ xs, msgpack_to_json (json_to_msgpack x) = x) :
    msgpackListToJson (jsonListToMsgpack xs) = xs := by
  induction xs with
  | nil => simp [jsonListToMsgpack, msgpackListToJson]
  | cons x rest ihl =>
    simp [jsonListToMsgpack, msgpackListToJson, ih x (by simp),
      ihl (fun y hy => ih y (by simp [hy]))]

theorem entriesRoundtrip (kvs : List (String × Json))
    (ih : ∀ p ∈ kvs, msgpack_to_json (json_to_msgpack p.2) = p.2) :
    msgpackEntriesToJson (jsonEntriesToMsgpack kvs) = kvs := by
  induction kvs with
  | nil => simp [jsonEntriesToMsgpack, msgpackEntriesToJson]
  | cons p rest ihl =>
    obtain ⟨k, v⟩ := p
    simpa [jsonEntriesToMsgpack, msgpackEntriesToJson, keyRender, Utf8Str.as_str,
      ihl (fun q hq => ih q (by simp [hq]))] using ih ⟨k, v⟩ (by simp)

/-! ## C1: round trip on pure-text data -/

/-- C1: for every Human Value tree built only from null, booleans,
strings, integer-valued numbers within signed 64-bit range, and
arrays/objects of those, converting Human-to-Wire with `json_to_msgpack`
and back with `msgpack_to_json` yields the original tree. -/
theorem c1_round_trip (v : Json) (h : PureVal v) :
    msgpack_to_json (json_to_msgpack v) = v := by
  induction h with
  | null => simp [json_to_msgpack, msgpack_to_json]
  | bool b => simp [json_to_msgpack, msgpack_to_json]
  | str s => simp [json_to_msgpack, msgpack_to_json, Utf8Str.as_str]
  | int n h1 h2 =>
    norm_num at h1 h2
    simp [json_to_msgpack, serde_as_i64, h2, msgpack_to_json, rmpv_as_i64, h1]
  | arr xs hall ih =>
    simp [json_to_msgpack, msgpack_to_json, listRoundtrip xs ih]
  | obj kvs hall hn ih =>
    simp [json_to_msgpack, msgpack_to_json, entriesRoundtrip kvs ih,
      objFromList_eq_self kvs hn]

/-- Witness for C1 at a concrete pure tree. -/
theorem c1_round_trip_witness :
    PureVal (Json.obj [("id", .str "u1"), ("n", .num (.int 42))])
      ∧ msgpack_to_json (json_to_msgpack (Json.obj [("id", .str "u1"), ("n", .num (.int 42))]))
          = Json.obj [("id", .str "u1"), ("n", .num (.int 42))] := by
  have hp : PureVal (Json.obj [("id", .str "u1"), ("n", .num (.int 42))]) := by
    refine PureVal.obj _ ?_ (by decide)
    intro p hp
    rcases List.mem_cons.mp hp with rfl | h2
    · exact PureVal.str _
    · rcases List.mem_cons.mp h2 with rfl | h3
      · exact PureVal.int 42 (by decide) (by decide)
      · exact absurd h3 (List.not_mem_nil p)
  exact ⟨hp, c1_round_trip _ hp⟩

/-! ## C2: map entries under Wire-to-Human conversion -/

/-- C2 counterexample: a map whose single entry has a text-string key with
undecodable bytes is converted to an empty object — the entry is dropped,
contradicting "no entry of the source map is dropped". -/
theorem c2_map_keys_counterexample :
    msgpack_to_json (.map [(.str (.invalid [255]), .nil)]) = .obj []
      ∧ [((MsgVal.str (.invalid [255])), MsgVal.nil)].length = 1 := by
  constructor
  · simp [msgpack_to_json, msgpackEntriesToJson, keyRender, Utf8Str.as_str, objFromList]
  · rfl

/-- C2 amended: every entry whose key is a decodable text string keeps
that text as the object key, every entry with a non-string key gets the
textual rendering of the key, and entries whose key is a text string with
undecodable bytes are dropped; among kept entries rendering to the same
text, the last under assignment order wins (stated as: looking up any
text `t` in the converted object finds the conversion of the value of the
last kept entry rendering to `t`).  The spec's scenario — integer key `42`
becomes object key `"42"` — is included. -/
theorem c2_map_keys_amended :
    (∀ (kvs : List (MsgVal × MsgVal)) (t : String),
      objLookup (Json.objEntries (msgpack_to_json (.map kvs))) t
        = objLookup (msgpackEntriesToJson kvs).reverse t)
    ∧ (∀ kvs, msgpackEntriesToJson kvs
        = kvs.filterMap (fun p => (keyRender p.1).map (fun ks => (ks, msgpack_to_json p.2))))
    ∧ msgpack_to_json (.map [(.integer 42, .str (.valid "x"))]) = .obj [("42", .str "x")] := by
  refine ⟨?_, msgpackEntriesToJson_eq_filterMap, ?_⟩
  · intro kvs t
    simp [msgpack_to_json, Json.objEntries, objLookup_objFromList]
  · simp [msgpack_to_json, msgpackEntriesToJson, keyRender, display, objFromList, objInsert]
    exact ⟨rfl, rfl⟩

/-! ## C3: read errors and empty reads -/

/-- C3 counterexample: with connect and write succeeding and the single
read returning zero bytes, `call` fails with the decode-error outcome
(decoding zero bytes fails), not with a read-error message as claimed. -/
theorem c3_empty_read_counterexample :
    call "/run/cortex/cortex.sock" ⟨none, none, .ok []⟩ 1 "ping" []
        = .error ("decode error: " ++ eofMsg)
      ∧ ¬ ∃ e, call "/run/cortex/cortex.sock" ⟨none, none, .ok []⟩ 1 "ping" []
          = .error ("read error: " ++ e) := by
  have hr : read_value ([] : List Nat) = .error eofMsg := by
    rw [read_value, readValue]; rfl
  have hc : call "/run/cortex/cortex.sock" ⟨none, none, .ok []⟩ 1 "ping" []
      = .error ("decode error: " ++ eofMsg) := by
    simp [call, hr]
  refine ⟨hc, ?_⟩
  rintro ⟨e, he⟩
  have hs : ("decode error: " ++ eofMsg) = "read error: " ++ e := by
    have h2 := hc.symm.trans he
    injection h2
  have hd := congrArg String.data hs
  rw [String.data_append, String.data_append] at hd
  have hl : "decode error: ".data ++ eofMsg.data
      = "decode error: unexpected end of input".data := by decide
  rw [hl] at hd
  have h12 := congrArg (List.take 12) hd
  have htl : List.take 12 ("read error: ".data ++ e.data) = "read error: ".data :=
    List.take_left' (by decide)
  rw [htl] at h12
  exact absurd h12 (by decide)

/-- C3 amended: with connect and write succeeding, a read that returns an
I/O error produces the terminal read-error outcome, while a read that
returns zero bytes proceeds to decoding, which fails on empty input and
produces the decode-error outcome. -/
theorem c3_read_outcomes (path : String) (ex : Exchange) (mid : Nat) (method : String)
    (params : List MsgVal) (hc : ex.connectErr = none) (hw : ex.writeErr = none) :
    (∀ e, ex.readRes = .error e →
        call path ex mid method params = .error ("read error: " ++ e))
    ∧ (ex.readRes = .ok [] →
        call path ex mid method params = .error ("decode error: " ++ eofMsg)) := by
  obtain ⟨c, w, r⟩ := ex
  simp only at hc hw
  subst hc
  subst hw
  constructor
  · intro e he
    simp only at he
    subst he
    simp [call]
  · intro he
    simp only at he
    subst he
    have hr : read_value ([] : List Nat) = .error eofMsg := by
      rw [read_value, readValue]; rfl
    simp [call, hr]

/-- Witness for the amended C3 at a concrete exchange. -/
theorem c3_read_outcomes_witness :
    call "/sock" ⟨none, none, .error "connection reset"⟩ 1 "ping" []
        = .error ("read error: " ++ "connection reset") :=
  (c3_read_outcomes "/sock" ⟨none, none, .error "connection reset"⟩ 1 "ping" [] rfl rfl).1
    "connection reset" rfl

/-! ## C4: error-slot handling on 4-element replies -/

/-- C4: on a decoded 4-element array reply, a non-nil error slot makes the
call fail with the error slot's string content when it is decodable text,
with the fixed fallback "unknown error" when it is a text string whose
bytes do not decode, and with the generic textual rendering of the value
otherwise; the result slot is ignored entirely (the outcome does not
depend on it).  A nil error slot makes the call succeed with the value at
index 3. -/
theorem c4_error_slot (mt id e r r' : MsgVal) :
    (e.isNil = false →
      handleResponse (.array [mt, id, e, r]) = .error (rpcErrMsg e)
      ∧ handleResponse (.array [mt, id, e, r]) = handleResponse (.array [mt, id, e, r'])
      ∧ (∀ s, e = .str (.valid s) → handleResponse (.array [mt, id, e, r]) = .error s)
      ∧ (∀ bs, e = .str (.invalid bs) →
          handleResponse (.array [mt, id, e, r]) = .error "unknown error")
      ∧ ((∀ u, e ≠ .str u) → handleResponse (.array [mt, id, e, r]) = .error (display e)))
    ∧ (e = .nil → handleResponse (.array [mt, id, e, r]) = .ok (some r)) := by
  constructor
  · intro hne
    have h1 : handleResponse (.array [mt, id, e, r]) = .error (rpcErrMsg e) := by
      simp [handleResponse, hne]
    refine ⟨h1, ?_, ?_, ?_, ?_⟩
    · simp [handleResponse, hne]
    · rintro s rfl
      rw [h1]
      simp [rpcErrMsg, Utf8Str.as_str]
    · rintro bs rfl
      rw [h1]
      simp [rpcErrMsg, Utf8Str.as_str]
    · intro hns
      rw [h1]
      cases e with
      | str u => exact absurd rfl (hns u)
      | nil => simp [rpcErrMsg]
      | boolean b => simp [rpcErrMsg]
      | integer n => simp [rpcErrMsg]
      | f32 f => simp [rpcErrMsg]
      | f64 f => simp [rpcErrMsg]
      | binary b => simp [rpcErrMsg]
      | array xs => simp [rpcErrMsg]
      | map kvs => simp [rpcErrMsg]
      | ext ty data => simp [rpcErrMsg]
  · rintro rfl
    simp [handleResponse, MsgVal.isNil]

/-- Witness for C4 at a concrete reply with a text error slot. -/
theorem c4_error_slot_witness :
    handleResponse (.array [.integer 1, .integer 7, .str (.valid "boom"), .integer 3])
      = .error "boom" :=
  (((c4_error_slot (.integer 1) (.integer 7) (.str (.valid "boom")) (.integer 3)
      MsgVal.nil).1 rfl).2.2.1) "boom" rfl

/-! ## C5: envelope shape rejection -/

/-- C5: every decoded reply that is not a 4-element array — whatever its
variant or element types — yields the protocol failure "invalid response
format", and every 4-element array proceeds to error/result inspection. -/
theorem c5_envelope_shape (v : MsgVal)
    (h : ∀ parts, v = .array parts → parts.length ≠ 4) :
    handleResponse v = .error "invalid response format"
    ∧ ∀ mt id e r, handleResponse (.array [mt, id, e, r])
        = if e.isNil then .ok (some r) else .error (rpcErrMsg e) := by
  constructor
  · cases v with
    | array parts =>
      rcases parts with _ | ⟨a, _ | ⟨b, _ | ⟨c, _ | ⟨d, _ | ⟨x, rest⟩⟩⟩⟩⟩
      · rfl
      · rfl
      · rfl
      · rfl
      · exact absurd rfl (h [a, b, c, d] rfl)
      · rfl
    | nil => rfl
    | boolean b => rfl
    | integer n => rfl
    | f32 f => rfl
    | f64 f => rfl
    | str s => rfl
    | binary b => rfl
    | map kvs => rfl
    | ext ty data => rfl
  · intro mt id e r
    by_cases hne : e.isNil <;> simp [handleResponse, hne]

/-- Witness for C5 at a concrete 3-element reply. -/
theorem c5_envelope_shape_witness :
    handleResponse (.array [.integer 1, .integer 7, .nil]) = .error "invalid response format" :=
  (c5_envelope_shape (.array [.integer 1, .integer 7, .nil])
    (by
      intro parts hp
      injection hp with h2
      subst h2
      decide)).1

/-! ## C6: integer overflow policy -/

/-- C6: a wire integer in signed 64-bit range maps to that value as a
number; otherwise one in unsigned 64-bit range maps to that value;
otherwise the conversion yields null.  It never fails (`msgpack_to_json`
is a total function). -/
theorem c6_integer_policy (n : Int) :
    ((-(2 ^ 63) ≤ n ∧ n < 2 ^ 63) → msgpack_to_json (.integer n) = .num (.int n))
    ∧ (¬(-(2 ^ 63) ≤ n ∧ n < 2 ^ 63) → (0 ≤ n ∧ n < 2 ^ 64) →
        msgpack_to_json (.integer n) = .num (.int n))
    ∧ (¬(-(2 ^ 63) ≤ n ∧ n < 2 ^ 63) → ¬(0 ≤ n ∧ n < 2 ^ 64) →
        msgpack_to_json (.integer n) = .null) := by
  refine ⟨?_, ?_, ?_⟩
  · intro h
    simp only [msgpack_to_json, rmpv_as_i64, rmpv_as_u64]
    split_ifs
    all_goals rfl
  · intro h1 h2
    simp only [msgpack_to_json, rmpv_as_i64, rmpv_as_u64]
    split_ifs
    all_goals rfl
  · intro h1 h2
    simp only [msgpack_to_json, rmpv_as_i64, rmpv_as_u64]
    split_ifs
    all_goals rfl

/-- Witness for C6 at `2^64` (outside both ranges) and `2^63` (unsigned
only). -/
theorem c6_integer_policy_witness :
    msgpack_to_json (.integer (2 ^ 64)) = .null
      ∧ msgpack_to_json (.integer (2 ^ 63)) = .num (.int (2 ^ 63)) := by
  constructor
  · exact (c6_integer_policy (2 ^ 64)).2.2 (by decide) (by decide)
  · exact (c6_integer_policy (2 ^ 63)).2.1 (by decide) (by decide)

/-! ## C7: non-finite float policy -/

/-- C7: a wire 32-bit or 64-bit float that is not finite maps to the
numeric value zero; a finite float maps to that floating number.  The
conversion never fails (it is a total function). -/
theorem c7_float_policy (f : Fl) :
    (f.isFinite = false →
      msgpack_to_json (.f32 f) = .num (.int 0) ∧ msgpack_to_json (.f64 f) = .num (.int 0))
    ∧ (∀ q, f = .finite q →
      msgpack_to_json (.f32 f) = .num (.float q)
        ∧ msgpack_to_json (.f64 f) = .num (.float q)) := by
  constructor
  · intro h
    cases f with
    | finite q => simp [Fl.isFinite] at h
    | nan => simp [msgpack_to_json, serde_from_f64]
    | inf => simp [msgpack_to_json, serde_from_f64]
    | negInf => simp [msgpack_to_json, serde_from_f64]
  · rintro q rfl
    simp [msgpack_to_json, serde_from_f64]

/-- Witness for C7 at NaN and at the finite float 1/2. -/
theorem c7_float_policy_witness :
    msgpack_to_json (.f64 .nan) = .num (.int 0)
      ∧ msgpack_to_json (.f32 (.finite (1 / 2))) = .num (.float (1 / 2)) := by
  constructor
  · exact ((c7_float_policy .nan).1 rfl).2
  · exact ((c7_float_policy (.finite (1 / 2))).2 (1 / 2) rfl).1

/-! ## C8: lossy binary-to-text policy -/

theorem toNat_charOfNat (b : Nat) (h : b < 0xd800) : (Char.ofNat b).toNat = b := by
  have hv : b.isValidChar := Or.inl h
  rw [Char.ofNat, dif_pos hv]
  rfl

/-- Invalid byte sequences always produce at least one replacement
character under lossy decoding (fuel-indexed strong induction). -/
theorem replacement_mem_aux (n : Nat) :
    ∀ l : List Nat, l.length ≤ n → validUtf8 l = false →
      replacementChar ∈ utf8LossyAux l := by
  induction n with
  | zero =>
    intro l hl h
    have : l = [] := List.length_eq_zero.mp (Nat.le_zero.mp hl)
    subst this
    simp [validUtf8] at h
  | succ n ih =>
    intro l hl h
    match l with
    | [] => simp [validUtf8] at h
    | b0 :: rest =>
      rw [utf8LossyAux]
      rw [validUtf8] at h
      cases hc : utf8Classify b0 rest with
      | error skip => simp [hc]
      | ok pr =>
        obtain ⟨cp, extra⟩ := pr
        rw [hc] at h
        simp only [] at h
        simp only [hc]
        refine List.mem_cons_of_mem _ (ih (rest.drop extra) ?_ h)
        simp only [List.length_cons] at hl
        simp [List.length_drop]
        omega

theorem replacement_mem_of_invalid (l : List Nat) (h : validUtf8 l = false) :
    replacementChar ∈ utf8LossyAux l :=
  replacement_mem_aux l.length l le_rfl h

/-- C8: for a byte sequence `b` that is not valid text, the conversion of
the wire binary value of `b` is the lossy decoding of `b` (a total
function — it never fails), that string contains the replacement
character, and it differs from `b` reinterpreted verbatim as characters. -/
theorem c8_lossy_binary (b : List Nat) (hb : ∀ x ∈ b, x < 256)
    (h : validUtf8 b = false) :
    msgpack_to_json (.binary b) = .str (utf8Lossy b)
    ∧ replacementChar ∈ (utf8Lossy b).data
    ∧ utf8Lossy b ≠ String.mk (b.map Char.ofNat) := by
  have hmem : replacementChar ∈ utf8LossyAux b := replacement_mem_of_invalid b h
  refine ⟨by simp [msgpack_to_json], hmem, ?_⟩
  intro he
  have hd : utf8LossyAux b = b.map Char.ofNat := congrArg String.data he
  rw [hd] at hmem
  obtain ⟨x, hx, hxe⟩ := List.mem_map.mp hmem
  have hx256 : x < 256 := hb x hx
  have h1 : (Char.ofNat x).toNat = x := toNat_charOfNat x (by omega)
  have h2 := congrArg Char.toNat hxe
  rw [h1] at h2
  have h3 : replacementChar.toNat = 0xFFFD := by decide
  rw [h3] at h2
  omega

/-- Witness for C8 at the single invalid byte `0xFF`. -/
theorem c8_lossy_binary_witness :
    msgpack_to_json (.binary [255]) = .str (utf8Lossy [255])
    ∧ replacementChar ∈ (utf8Lossy [255]).data
    ∧ utf8Lossy [255] ≠ String.mk ([255].map Char.ofNat) :=
  c8_lossy_binary [255] (by decide)
    (by rw [validUtf8]; simp [utf8Classify, isCont])

/-! ## C9: correlation-id monotonicity -/

theorem runCalls_eq (calls : List (String × List MsgVal)) :
    ∀ c, c + calls.length ≤ 2 ^ 32 →
      runCalls c calls
        = List.zipWith (fun msgid p => buildRequest msgid p.1 p.2)
            (List.range' c calls.length) calls := by
  induction calls with
  | nil => intro c h; simp [runCalls]
  | cons p rest ih =>
    intro c h
    obtain ⟨m, ps⟩ := p
    simp only [List.length_cons] at h ⊢
    rw [List.range'_succ]
    simp only [runCalls, fetch_add, List.zipWith_cons_cons]
    by_cases hlt : c + 1 < 2 ^ 32
    · rw [Nat.mod_eq_of_lt hlt, ih (c + 1) (by omega)]
    · have hr : rest.length = 0 := by omega
      have : rest = [] := List.length_eq_zero.mp hr
      subst this
      simp [runCalls]

/-- C9: starting from the initial counter value 1, a sequence of calls
uses correlation ids `1, 2, 3, …` (wraparound excluded by hypothesis):
the k-th request envelope is exactly `[0, 1 + k, method, params]`, and
the ids used are pairwise distinct and strictly increasing. -/
theorem c9_correlation_ids (calls : List (String × List MsgVal))
    (h : MSG_ID_init + calls.length ≤ 2 ^ 32) :
    runCalls MSG_ID_init calls
      = List.zipWith (fun msgid p => buildRequest msgid p.1 p.2)
          (List.range' MSG_ID_init calls.length) calls
    ∧ (List.range' MSG_ID_init calls.length).Nodup
    ∧ List.Chain' (fun a b => a < b) (List.range' MSG_ID_init calls.length) :=
  ⟨runCalls_eq calls MSG_ID_init h, List.nodup_range' _ _,
    (List.pairwise_lt_range' _ _).chain'⟩

/-- Witness for C9 at two concrete calls. -/
theorem c9_correlation_ids_witness :
    runCalls MSG_ID_init [("ping", []), ("status", [])]
      = [buildRequest 1 "ping" [], buildRequest 2 "status" []] := by
  have h := (c9_correlation_ids [("ping", []), ("status", [])] (by decide)).1
  rw [h]
  rfl

/-! ## C10: output confinement of Human-to-Wire conversion -/

theorem wireOkList_of (xs : List Json)
    (ih : ∀ x ∈ xs, wireOk (json_to_msgpack x) = true) :
    wireOkList (jsonListToMsgpack xs) = true := by
  induction xs with
  | nil => simp [jsonListToMsgpack, wireOkList]
  | cons x rest ihl =>
    simp [jsonListToMsgpack, wireOkList, ih x (by simp),
      ihl (fun y hy => ih y (by simp [hy]))]

theorem wireOkEntries_of (kvs : List (String × Json))
    (ih : ∀ p ∈ kvs, wireOk (json_to_msgpack p.2) = true) :
    wireOkEntries (jsonEntriesToMsgpack kvs) = true := by
  induction kvs with
  | nil => simp [jsonEntriesToMsgpack, wireOkEntries]
  | cons p rest ihl =>
    obtain ⟨k, v⟩ := p
    simpa [jsonEntriesToMsgpack, wireOkEntries,
      ihl (fun q hq => ih q (by simp [hq]))] using ih ⟨k, v⟩ (by simp)

/-- C10: for every `serde_json`-representable Human Value, the wire value
produced by `json_to_msgpack` stays inside the vocabulary `wireOk`:
no binary, 32-bit-float, or extension variants anywhere, integers in
signed 64-bit range, and every map key a decodable text string. -/
theorem c10_wire_confinement (v : Json) (h : WfJson v) :
    wireOk (json_to_msgpack v) = true := by
  induction h with
  | null => simp [json_to_msgpack, wireOk]
  | bool b => simp [json_to_msgpack, wireOk]
  | str s => simp [json_to_msgpack, wireOk]
  | int n h1 h2 =>
    simp only [json_to_msgpack, serde_as_i64, serde_as_f64]
    split_ifs with hi
    · simp only [wireOk]
      rw [decide_eq_true (by omega : -(2 ^ 63) ≤ n), decide_eq_true hi]
      rfl
    · simp [wireOk]
  | float q => simp [json_to_msgpack, serde_as_i64, serde_as_f64, wireOk]
  | arr xs hall ih =>
    simp only [json_to_msgpack, wireOk]
    exact wireOkList_of xs ih
  | obj kvs hall ih =>
    simp only [json_to_msgpack, wireOk]
    exact wireOkEntries_of kvs ih

/-- Witness for C10 at a concrete object with a nested array. -/
theorem c10_wire_confinement_witness :
    wireOk (json_to_msgpack (Json.obj [("a", .num (.int 1)), ("b", .arr [.null])])) = true := by
  have hw : WfJson (Json.obj [("a", .num (.int 1)), ("b", .arr [.null])]) := by
    refine WfJson.obj _ ?_
    intro p hp
    rcases List.mem_cons.mp hp with rfl | h2
    · exact WfJson.int 1 (by decide) (by decide)
    · rcases List.mem_cons.mp h2 with rfl | h3
      · refine WfJson.arr _ ?_
        intro x hx
        rcases List.mem_cons.mp hx with rfl | h4
        · exact WfJson.null
        · exact absurd h4 (List.not_mem_nil x)
      · exact absurd h3 (List.not_mem_nil p)
  exact c10_wire_confinement _ hw
